import Mathlib

/-!
Verification development for the FrontEnd repository (incremental cache
synchronizer + metric text parsers + leaderboard aggregation).

The definitions below are a shallow embedding of the Python source:
  - src/update_cache.py        (single-database synchronizer)
  - src/update_all_caches.py   (two-database synchronizer; same sweep logic
                                plus a `score` field on fetched entries)
  - src/streamlit_app.py       (column normalizer, metric text parsers,
                                leaderboard table assembly)

Python strings are modelled as Lean `String` (lists of unicode scalar
values); the case-mapping functions `str.lower`, `str.upper`, `str.title`
are modelled on the basic-latin (ASCII) range, which is the range they act
on for every label occurring in the data model.  Numeric values are
modelled as `ℚ`: Python `float(...)` on the finite-decimal grammar
(optional sign, digits, optional fractional part, optional exponent) is
embedded exactly; the special non-finite spellings (`inf`, `nan`) and
digit-group underscores, which no benchmark text uses, are outside the
modelled grammar and coerce to `none`.
-/

/-- Codepoint test for the characters removed by Python `str.strip()`
(space, tab, newline, carriage return, vertical tab, form feed). -/
def pyIsSpace (c : Char) : Bool :=
  c.toNat = 32 || c.toNat = 9 || c.toNat = 10 || c.toNat = 13 || c.toNat = 11 || c.toNat = 12

/-- ASCII uppercase letter test. -/
def isUpperAscii (c : Char) : Bool :=
  65 ≤ c.toNat && c.toNat ≤ 90

/-- ASCII lowercase letter test. -/
def isLowerAscii (c : Char) : Bool :=
  97 ≤ c.toNat && c.toNat ≤ 122

/-- Cased-letter test used by the `str.title()` model (ASCII range). -/
def pyIsAlpha (c : Char) : Bool :=
  isUpperAscii c || isLowerAscii c

/-- Model of Python `str.lower()` on one character (ASCII range). -/
def pyLowerChar (c : Char) : Char :=
  if isUpperAscii c then Char.ofNat (c.toNat + 32) else c

/-- Model of Python `str.upper()` on one character (ASCII range). -/
def pyUpperChar (c : Char) : Char :=
  if isLowerAscii c then Char.ofNat (c.toNat - 32) else c

/-- Model of Python `str.strip()`: drop whitespace from both ends. -/
def stripCore (l : List Char) : List Char :=
  ((l.dropWhile pyIsSpace).reverse.dropWhile pyIsSpace).reverse

/-- Model of Python `str.split(sep)` for a one-character separator:
splits on every occurrence, keeping empty fields (`"".split(',') = [""]`). -/
def splitOnChar (sep : Char) : List Char → List (List Char)
  | [] => [[]]
  | c :: rest =>
    let r := splitOnChar sep rest
    if c = sep then [] :: r
    else
      match r with
      | h :: t => (c :: h) :: t
      | [] => [[c]]

/-- Model of `s.replace('\r\n', '\n').replace('\r', '\n')` (the line-ending
normalization both parsers perform): every `"\r\n"` pair collapses to
`'\n'`, every remaining `'\r'` becomes `'\n'`. -/
def normNewlines : List Char → List Char
  | [] => []
  | '\r' :: '\n' :: rest => '\n' :: normNewlines rest
  | '\r' :: rest => '\n' :: normNewlines rest
  | c :: rest => c :: normNewlines rest

/-- ASCII digit test. -/
def isDigitAscii (c : Char) : Bool :=
  48 ≤ c.toNat && c.toNat ≤ 57

/-- Numeric value of a digit string (most significant first). -/
def natOfDigits (l : List Char) : Nat :=
  l.foldl (fun a c => a * 10 + (c.toNat - 48)) 0

/-- Optional leading sign of a Python numeric literal. -/
def takeSign : List Char → Int × List Char
  | '+' :: r => (1, r)
  | '-' :: r => (-1, r)
  | r => (1, r)

/-- Exponent suffix of the Python `float()` grammar: empty input means
exponent `0`, `e`/`E` followed by an optionally signed nonempty digit
string gives that exponent, anything else fails. -/
def floatExpVal (cs : List Char) : Option Int :=
  match cs with
  | [] => some 0
  | e :: rest =>
    if e = 'e' || e = 'E' then
      let se := takeSign rest
      let ed := se.2.takeWhile isDigitAscii
      let tail := se.2.dropWhile isDigitAscii
      if ed.isEmpty || !tail.isEmpty then none
      else some (se.1 * Int.ofNat (natOfDigits ed))
    else none

/-- Exact rational value of a parsed decimal literal
`sgn * ip.fp * 10 ^ ex` (built with the core constructors so that closed
instances evaluate inside the kernel). -/
def decToRat (sgn : Int) (ip fp : List Char) (ex : Int) : ℚ :=
  let m : Int := sgn * Int.ofNat (natOfDigits ip * 10 ^ fp.length + natOfDigits fp)
  let e : Int := ex - Int.ofNat fp.length
  mkRat (m * Int.ofNat (10 ^ e.toNat)) (10 ^ (Int.toNat (-e)))

/-- Model of Python `float(s)` on the finite-decimal grammar: optional
surrounding whitespace, optional sign, digits with an optional `'.'` and
fractional digits (at least one digit overall), optional exponent; any
other input yields `none` (the `ValueError` branch). -/
def pyFloatCore (l : List Char) : Option ℚ :=
  let s := takeSign (stripCore l)
  let ip := s.2.takeWhile isDigitAscii
  let rest1 := s.2.dropWhile isDigitAscii
  match rest1 with
  | '.' :: r2 =>
    let fp := r2.takeWhile isDigitAscii
    let rest2 := r2.dropWhile isDigitAscii
    if ip.isEmpty && fp.isEmpty then none
    else (floatExpVal rest2).map (fun ex => decToRat s.1 ip fp ex)
  | _ =>
    if ip.isEmpty then none
    else (floatExpVal rest1).map (fun ex => decToRat s.1 ip [] ex)

/-- Model of Python `int(s)` on a decimal string: optional surrounding
whitespace, optional sign, then a nonempty digit string; anything else
yields `none` (the `ValueError` branch). -/
def pyIntCore (l : List Char) : Option Int :=
  let s := takeSign (stripCore l)
  if s.2.isEmpty || !s.2.all isDigitAscii then none
  else some (s.1 * Int.ofNat (natOfDigits s.2))

/-- Value stored for one benchmark column: Python keeps `float(value)` when
the coercion succeeds and the original trimmed string otherwise. -/
inductive Cell where
  | num (q : ℚ)
  | text (s : String)
deriving DecidableEq

/-- The fixed label table of `normalize_column_name`
(src/streamlit_app.py lines 202-221): 18 lowercase keys covering the 12
benchmark names (underscore/space-insensitive) plus `Average`. -/
def column_mapping : List (String × String) :=
  [("arc_challenge", "ARC Challenge"),
   ("arc challenge", "ARC Challenge"),
   ("arc_easy", "ARC Easy"),
   ("arc easy", "ARC Easy"),
   ("boolq", "BoolQ"),
   ("fda", "FDA"),
   ("hellaswag", "HellaSwag"),
   ("lambada_openai", "LAMBDA OpenAI"),
   ("lambda openai", "LAMBDA OpenAI"),
   ("openbookqa", "OpenBookQA"),
   ("piqa", "PIQA"),
   ("social_iqa", "Social IQA"),
   ("social iqa", "Social IQA"),
   ("squad_completion", "SQuAD Completion"),
   ("squad completion", "SQuAD Completion"),
   ("swde", "SWDE"),
   ("winogrande", "WinoGrande"),
   ("average", "Average")]

/-- The label table with both sides as character lists. -/
def column_mapping_chars : List (List Char × List Char) :=
  column_mapping.map (fun p => (p.1.toList, p.2.toList))

/-- One step of the `str.title()` model: a cased letter is uppercased when
the previous character was not cased and lowercased otherwise; every other
character is kept. -/
def titleTransform (prevAlpha : Bool) (c : Char) : Char :=
  if pyIsAlpha c then (if prevAlpha then pyLowerChar c else pyUpperChar c) else c

/-- Title-casing scan carrying whether the previous character was cased. -/
def titleAuxCore : Bool → List Char → List Char
  | _, [] => []
  | b, c :: cs => titleTransform b c :: titleAuxCore (pyIsAlpha c) cs

/-- Model of Python `str.title()` (ASCII range). -/
def titleCore (l : List Char) : List Char :=
  titleAuxCore false l

/-- First-match association lookup (Python `dict.get` over the fixed
mapping, whose keys are distinct). -/
def lookupChars (k : List Char) : List (List Char × List Char) → Option (List Char)
  | [] => none
  | p :: rest => if p.1 = k then some p.2 else lookupChars k rest

/-- Core of `normalize_column_name` (src/streamlit_app.py lines 200-224):
trim and lowercase the label, look it up in the fixed table, and fall back
to the trimmed title-cased original when unmapped. -/
def normCore (l : List Char) : List Char :=
  let clean := (stripCore l).map pyLowerChar
  match lookupChars clean column_mapping_chars with
  | some v => v
  | none => titleCore (stripCore l)

/-- Embedding of `normalize_column_name` (src/streamlit_app.py 200-224). -/
def normalize_column_name (s : String) : String :=
  ⟨normCore s.toList⟩

/-- Python dict assignment `result[k] = v` preserving insertion order:
an existing key keeps its position and gets the new value (last value
wins); a new key is appended. -/
def dictInsert (m : List (String × Cell)) (k : String) (v : Cell) : List (String × Cell) :=
  if m.any (fun p => p.1 == k) then m.map (fun p => if p.1 == k then (k, v) else p)
  else m ++ [(k, v)]

/-- Numeric coercion of one value column: `float(value)` on success,
the original trimmed string on `ValueError`. -/
def coerceValue (v : List Char) : Cell :=
  match pyFloatCore v with
  | some q => Cell.num q
  | none => Cell.text ⟨v⟩

/-- The line list both parsers start from: normalize line endings, strip
the whole text, split on newlines (`text.strip().split('\n')` after the
`replace` calls). -/
def pyLines (s : String) : List (List Char) :=
  splitOnChar '\n' (stripCore (normNewlines s.toList))

/-- Column-skipping test of `parse_test_results`: position 0 (the model
name column) and any column whose lowercased header is `model` or empty. -/
def headerSkip (i : Nat) (h : List Char) : Bool :=
  i == 0 || h.map pyLowerChar == ("model".toList) || h.map pyLowerChar == ([] : List Char)

/-- Embedding of `parse_test_results` (src/streamlit_app.py 226-260):
normalize line endings, strip, split into lines; with fewer than two lines
return the empty mapping; otherwise split header and value lines on commas,
strip each token, pair positionally (`zip` truncates to the shorter line),
skip the label column, normalize each remaining header and store the
coerced value with last-value-wins on duplicate canonical labels. -/
def parse_test_results (test_string : String) : List (String × Cell) :=
  if test_string.toList = [] then []
  else
    match pyLines test_string with
    | line0 :: line1 :: _ =>
      let headers := (splitOnChar ',' line0).map stripCore
      let values := (splitOnChar ',' line1).map stripCore
      ((headers.zip values).enum).foldl
        (fun acc iv =>
          if headerSkip iv.1 iv.2.1 then acc
          else dictInsert acc (normalize_column_name ⟨iv.2.1⟩) (coerceValue iv.2.2))
        []
    | _ => []

/-- Step/loss token pairs of a training series (src/streamlit_app.py
274-278): both lines split on commas with the first label column dropped
and each token stripped, paired positionally (`zip` truncates). With fewer
than two lines there are no pairs. -/
def lossPairs (train_string : String) : List (List Char × List Char) :=
  match pyLines train_string with
  | line0 :: line1 :: _ =>
    (((splitOnChar ',' line0).drop 1).map stripCore).zip
      (((splitOnChar ',' line1).drop 1).map stripCore)
  | _ => []

/-- Scan of src/streamlit_app.py lines 281-286: return the first loss whose
step coerces to `target`; a pair whose step or loss fails to coerce is
skipped (the inner `except ValueError: continue`). -/
def findLoss (target : Int) : List (List Char × List Char) → Option ℚ
  | [] => none
  | p :: rest =>
    match pyIntCore p.1 with
    | some n =>
      if n = target then
        match pyFloatCore p.2 with
        | some q => some q
        | none => findLoss target rest
      else findLoss target rest
    | none => findLoss target rest

/-- Embedding of `get_loss_at_step_2000` generalized over the checkpoint
step (the source pins `target = 2000`; the spec names the mode
`at_step(target_step)`). Empty text and texts with fewer than two lines
yield `none` (then `lossPairs` is empty). -/
def get_loss_at_step (target : Int) (train_string : String) : Option ℚ :=
  if train_string.toList = [] then none
  else findLoss target (lossPairs train_string)

/-- Embedding of `get_loss_at_step_2000` (src/streamlit_app.py 262-292). -/
def get_loss_at_step_2000 (train_string : String) : Option ℚ :=
  get_loss_at_step 2000 train_string

/-- Modelled from the spec: the `minimum` mode of `parse_loss_series` has
no implementation under src/ (only the at-step variant
`get_loss_at_step_2000` is present); per spec section 4.3 it ignores the
step line entirely, coerces every value on the loss line to float skipping
entries that fail to coerce, and returns the minimum, or absent when no
value parses or the text has fewer than two lines. -/
def parse_loss_minimum (train_string : String) : Option ℚ :=
  if train_string.toList = [] then none
  else
    match pyLines train_string with
    | _ :: line1 :: _ =>
      match (splitOnChar ',' line1).filterMap pyFloatCore with
      | [] => none
      | q :: qs => some (qs.foldl (fun acc x => if Rat.blt x acc then x else acc) q)
    | _ => none

/-- Model of Python `str.lower()` (ASCII range). -/
def pyLower (s : String) : String :=
  ⟨s.toList.map pyLowerChar⟩

/-- The two loss-series modes of spec section 4.3. -/
inductive LossMode where
  | atStep (target : Int)
  | minLoss
deriving DecidableEq

/-- The spec entry point `parse_loss_series(text, mode)`: dispatch to the
at-step scan (embedded from `get_loss_at_step_2000`) or to the
spec-modelled minimum mode. -/
def parse_loss_series (mode : LossMode) (text : String) : Option ℚ :=
  match mode with
  | LossMode.atStep t => get_loss_at_step t text
  | LossMode.minLoss => parse_loss_minimum text

/-! ## Incremental synchronizer (src/update_all_caches.py, src/update_cache.py) -/

/-- The `result` object of a fetched element: the embedded benchmark text
and training series (`data['result'].get('test', '')` etc.). -/
structure ResultPayload where
  test : Option String
  train : Option String
deriving DecidableEq

/-- A remote element as fetched by `fetch_element`: `none` models an
unreachable/non-200/timeout fetch; a record without the `result` key is
modelled with `result := none`. -/
structure RemoteRecord where
  name : Option String
  parent : Option String
  result : Option ResultPayload
  score : Option ℚ
deriving DecidableEq

/-- One appended cache entry (src/update_all_caches.py lines 92-100;
src/update_cache.py builds the same entry without `score`). -/
structure SyncEntry where
  index : Nat
  name : String
  parent : Option String
  test : String
  train : String
  score : Option ℚ
  timestamp : String
deriving DecidableEq

/-- The persisted snapshot (`cache.json` / `cache_db*.json`): high-water
mark (`total_records_at_last_run`), fetched records in fetch order, and the
`last_update` timestamp. -/
structure Cache where
  total_records_at_last_run : Nat
  results : List SyncEntry
  last_update : Option String
deriving DecidableEq

/-- Outcome of one sync run, as the spec names the three exit paths of
`update_database`/`main`: returning early because the reported total is 0
(`SourceUnreachable`), returning early because the total does not exceed
the mark (`NoNewData`), or completing the sweep (`Updated`). -/
inductive Outcome where
  | sourceUnreachable
  | noNewData
  | updated
deriving DecidableEq

/-- The entry dict built for one fetched index (src/update_all_caches.py
lines 92-100): `name` defaults to `model_<i>` when the key is missing, the
embedded texts default to the empty string. -/
def mkEntry (i : Nat) (now : String) (d : RemoteRecord) (r : ResultPayload) : SyncEntry :=
  { index := i
  , name := d.name.getD ("model_" ++ toString i)
  , parent := d.parent
  , test := r.test.getD ("")
  , train := r.train.getD ("")
  , score := d.score
  , timestamp := now }

/-- The entry produced for index `i`, if any: `none` when the fetch failed
or the element lacks a `result` payload (`if data and 'result' in data`). -/
def fetchEntry (fetch_element : Nat → Option RemoteRecord) (now : String) (i : Nat) :
    Option SyncEntry :=
  match fetch_element i with
  | some d =>
    match d.result with
    | some r => some (mkEntry i now d r)
    | none => none
  | none => none

/-- The records appended by a sweep over `n` indices starting at `lo`, in
ascending index order, skipping unusable elements. -/
def fetchedEntries (fetch_element : Nat → Option RemoteRecord) (now : String) (lo n : Nat) :
    List SyncEntry :=
  (List.range' lo n).filterMap (fetchEntry fetch_element now)

/-- Embedding of `update_database` (src/update_all_caches.py lines 60-116;
`main` of src/update_cache.py lines 43-89 is the same sweep without the
`score` field).  `current_total` is the value returned by
`get_total_records` (0 also models the unreachable/error case), `now` the
wall-clock timestamp.  The third component lists the snapshots passed to
`save_cache`, in order, during the run. -/
def update_database (current_total : Nat) (fetch_element : Nat → Option RemoteRecord)
    (now : String) (cache : Cache) : Cache × Outcome × List Cache :=
  if current_total = 0 then (cache, Outcome.sourceUnreachable, [])
  else if current_total ≤ cache.total_records_at_last_run then (cache, Outcome.noNewData, [])
  else
    let last_total := cache.total_records_at_last_run
    let results :=
      (List.range' (last_total + 1) (current_total - last_total)).foldl
        (fun acc i =>
          match fetch_element i with
          | some d =>
            match d.result with
            | some r => acc ++ [mkEntry i now d r]
            | none => acc
          | none => acc)
        cache.results
    let newCache : Cache :=
      { total_records_at_last_run := current_total
      , results := results
      , last_update := some now }
    (newCache, Outcome.updated, [newCache])

/-- Fetch collaborator for the C1 witness: index 1 is usable, index 2 is
fetched but has no `result` payload (so it is skipped), index 3 and above
are missing. -/
def wFetch : Nat → Option RemoteRecord := fun i =>
  if i = 1 then
    some { name := some ("alpha")
         , parent := none
         , result := some { test := some ("t"), train := some ("tr") }
         , score := some (mkRat 1 2) }
  else if i = 2 then
    some { name := some ("broken"), parent := none, result := none, score := none }
  else none

/-- Empty starting snapshot for the sync witnesses. -/
def wCache : Cache :=
  { total_records_at_last_run := 0, results := [], last_update := none }

/-- Observable contents of the cache file while `save_cache` runs
(src/update_cache.py lines 20-23 and src/update_all_caches.py lines 37-40).
The function is `open(CACHE_FILE, 'w')` followed by `json.dump(...)`:
opening with mode `'w'` truncates the existing file to length zero before
any byte of the new serialization is written, and `json.dump` then emits
the serialized snapshot incrementally.  `k` counts completed primitive
steps: at `k = 0` the file still holds the old snapshot, at `k = 1` the
`open` call has truncated it, and step `1 + j` has written the first `j`
characters of the new serialization.  The source uses no temporary file,
rename, fsync, or any other atomic-replacement protocol. -/
def save_cache_observable (old new : String) (k : Nat) : String :=
  if k = 0 then old else ⟨new.toList.take (k - 1)⟩

/-- Snapshot with a mark of 3 for the C2 witness. -/
def wCache3 : Cache :=
  { total_records_at_last_run := 3, results := [], last_update := some ("earlier") }

/-! ## Leaderboard aggregation (src/streamlit_app.py, render_database_page) -/

/-- A snapshot record as consumed by `render_database_page` (one element of
`cache["results"]`): `name` is `none` when the key is missing (both that
and an empty string are falsy and make the record skipped). -/
structure AppRecord where
  index : Nat
  name : Option String
  test : String
  train : String
  score : Option ℚ
deriving DecidableEq

/-- The `Index` column value: the hard-coded SOTA row uses the literal
string `'SOTA'`, every source row its record index. -/
inductive IdxVal where
  | sota
  | idx (n : Nat)
deriving DecidableEq

/-- One leaderboard table row (the dict built in src/streamlit_app.py
lines 382-429): model name, `Score`, `Loss` at step 2000, the benchmark
mean (`测试集均值`, field `avg`), and the twelve benchmark columns. -/
structure Row where
  rowIndex : IdxVal
  name : String
  score : Option ℚ
  loss : Option ℚ
  avg : Option Cell
  benches : List (String × Option Cell)
deriving DecidableEq

/-- The fixed benchmark column list (src/streamlit_app.py lines 400-404). -/
def benchmark_datasets : List String :=
  ["ARC Challenge", "ARC Easy", "BoolQ", "FDA", "HellaSwag",
   "LAMBDA OpenAI", "OpenBookQA", "PIQA", "Social IQA",
   "SQuAD Completion", "SWDE", "WinoGrande"]

/-- Python dict lookup on the parsed benchmark mapping. -/
def dictGet (m : List (String × Cell)) (k : String) : Option Cell :=
  (m.find? (fun p => p.1 == k)).map (fun p => p.2)

/-- Rational sum, written with the core addition so closed instances
evaluate inside the kernel. -/
def ratSum (l : List ℚ) : ℚ :=
  l.foldl Rat.add 0

/-- The row built for one record (src/streamlit_app.py lines 382-429):
`Score` from the record, `Loss` from the step-2000 scan of the training
text, the benchmark mean as the exact mean of the numeric benchmark values
(falling back to an explicit `Average` column, else absent), and one
column per fixed benchmark. -/
def mkRowOfRecord (r : AppRecord) : Row :=
  let test_results := parse_test_results r.test
  let test_values := benchmark_datasets.filterMap (fun d =>
    match dictGet test_results d with
    | some (Cell.num q) => some q
    | _ => none)
  { rowIndex := IdxVal.idx r.index
  , name := r.name.getD ("")
  , score := r.score
  , loss := get_loss_at_step_2000 r.train
  , avg :=
      if test_values.isEmpty then dictGet test_results ("Average")
      else some (Cell.num (Rat.mul (ratSum test_values) (mkRat 1 test_values.length)))
  , benches := benchmark_datasets.map (fun d => (d, dictGet test_results d)) }

/-- The hard-coded SOTA pinned row `gated_delta_net`
(src/streamlit_app.py lines 438-456). -/
def gated_delta_net_row : Row :=
  { rowIndex := IdxVal.sota
  , name := "gated_delta_net"
  , score := none
  , loss := some (mkRat 4377 1000)
  , avg := some (Cell.num (mkRat 226 1000))
  , benches :=
      [("ARC Challenge", some (Cell.num (mkRat 168 1000))),
       ("ARC Easy", some (Cell.num (mkRat 374 1000))),
       ("BoolQ", some (Cell.num (mkRat 370 1000))),
       ("FDA", some (Cell.num (mkRat 0 1000))),
       ("HellaSwag", some (Cell.num (mkRat 282 1000))),
       ("LAMBDA OpenAI", some (Cell.num (mkRat 2 1000))),
       ("OpenBookQA", some (Cell.num (mkRat 144 1000))),
       ("PIQA", some (Cell.num (mkRat 562 1000))),
       ("Social IQA", some (Cell.num (mkRat 350 1000))),
       ("SQuAD Completion", some (Cell.num (mkRat 4 1000))),
       ("SWDE", some (Cell.num (mkRat 2 1000))),
       ("WinoGrande", some (Cell.num (mkRat 456 1000)))] }

/-- Truthiness test of `result.get('name')`: missing key and empty string
are falsy and make the record skipped (src/streamlit_app.py 379-380). -/
def hasUsableName (r : AppRecord) : Bool :=
  match r.name with
  | some nm => !(nm == "")
  | none => false

/-- Test for a record whose (usable) name matches the reserved baseline
identifier case-insensitively (src/streamlit_app.py line 432). -/
def isDeltaRecord (r : AppRecord) : Bool :=
  match r.name with
  | some nm => !(nm == "") && (pyLower nm == "delta_net")
  | none => false

/-- One iteration of the row-building loop (src/streamlit_app.py 378-435):
skip the record when its name is falsy, stash the row into the
`delta_net_row` slot (overwriting any earlier one) when the lowercased name
is `delta_net`, otherwise append it to `table_data`. -/
def pstep (acc : Option Row × List Row) (result : AppRecord) : Option Row × List Row :=
  match result.name with
  | none => acc
  | some nm =>
    if nm == "" then acc
    else
      let row := mkRowOfRecord result
      if pyLower nm == "delta_net" then (some row, acc.2)
      else (acc.1, acc.2 ++ [row])

/-- The row-building loop over all records: final `delta_net_row` slot and
`table_data` list (src/streamlit_app.py 375-435). -/
def partitionRows (results : List AppRecord) : Option Row × List Row :=
  results.foldl pstep (none, [])

/-- The assembled `final_table_data` (src/streamlit_app.py 458-464): the
hard-coded SOTA row first, then the `delta_net` row when one was found,
then the remaining rows in source order. -/
def buildFinalTable (results : List AppRecord) : List Row :=
  let p := partitionRows results
  gated_delta_net_row :: (p.1.toList ++ p.2)

/-- The display pipeline of src/streamlit_app.py 596-626: pull out all rows
named `gated_delta_net` and all rows named `delta_net` (both matched
case-insensitively), apply the user-selected filtering and sorting only to
the remaining rows (`process` stands for that arbitrary transformation),
and reassemble with the pinned blocks first. -/
def displayTable (df : List Row) (process : List Row → List Row) : List Row :=
  let gated := df.filter (fun row => pyLower row.name == "gated_delta_net")
  let delta := df.filter (fun row => pyLower row.name == "delta_net")
  let others := df.filter (fun row =>
    !(pyLower row.name == "gated_delta_net" || pyLower row.name == "delta_net"))
  gated ++ delta ++ process others

/-- Source record for the aggregation witnesses: the baseline `delta_net`
(mixed case, matched case-insensitively). -/
def deltaRecA : AppRecord :=
  { index := 1, name := some ("delta_net"), test := "", train := ""
  , score := some (mkRat 1 1) }

/-- A second source record that also lowercases to `delta_net`. -/
def deltaRecB : AppRecord :=
  { index := 2, name := some ("Delta_Net"), test := "", train := ""
  , score := some (mkRat 2 1) }

/-- An ordinary (non-pinned) source record with benchmark and loss text. -/
def ordRec : AppRecord :=
  { index := 3, name := some ("my_model"), test := "Model,BoolQ\nm,0.5"
  , train := "step,2000\nloss,4.0", score := none }

/-- Header tokens of a benchmark text with at least two lines (first line
split on commas, each token stripped); empty for shorter texts. -/
def headerTokens (s : String) : List (List Char) :=
  match pyLines s with
  | line0 :: _ :: _ => (splitOnChar ',' line0).map stripCore
  | _ => []

/-- Value tokens of a benchmark text with at least two lines (second line
split on commas, each token stripped); empty for shorter texts. -/
def valueTokens (s : String) : List (List Char) :=
  match pyLines s with
  | _ :: line1 :: _ => (splitOnChar ',' line1).map stripCore
  | _ => []

theorem foldl_fetch_eq (fetch_element : Nat → Option RemoteRecord) (now : String) :
    ∀ (l : List Nat) (acc : List SyncEntry),
      l.foldl
        (fun acc i =>
          match fetch_element i with
          | some d =>
            match d.result with
            | some r => acc ++ [mkEntry i now d r]
            | none => acc
          | none => acc)
        acc
      = acc ++ l.filterMap (fetchEntry fetch_element now) := by
  intro l
  induction l with
  | nil => intro acc; simp
  | cons i t ih =>
    intro acc
    simp only [List.foldl_cons, List.filterMap_cons]
    cases hf : fetch_element i with
    | none => simp only [fetchEntry, hf]; exact ih acc
    | some d =>
      cases hr : d.result with
      | none => simp only [fetchEntry, hf, hr]; exact ih acc
      | some r =>
        simp only [fetchEntry, hf, hr]
        rw [ih (acc ++ [mkEntry i now d r]), List.append_assoc]
        rfl

theorem fetchEntry_index (fetch_element : Nat → Option RemoteRecord) (now : String)
    (i : Nat) (e : SyncEntry) (h : fetchEntry fetch_element now i = some e) : e.index = i := by
  unfold fetchEntry at h
  cases hf : fetch_element i with
  | none => rw [hf] at h; cases h
  | some d =>
    rw [hf] at h
    dsimp only at h
    cases hr : d.result with
    | none => rw [hr] at h; cases h
    | some r =>
      rw [hr] at h
      cases h
      rfl

theorem pairwise_index_filterMap (fetch_element : Nat → Option RemoteRecord) (now : String) :
    ∀ (l : List Nat), l.Pairwise (· < ·) →
      ((l.filterMap (fetchEntry fetch_element now)).map SyncEntry.index).Pairwise (· < ·) := by
  intro l
  induction l with
  | nil => intro _; simp
  | cons i t ih =>
    intro hp
    rcases List.pairwise_cons.mp hp with ⟨hlt, hp2⟩
    rw [List.filterMap_cons]
    cases hf : fetchEntry fetch_element now i with
    | none => exact ih hp2
    | some e =>
      rw [List.map_cons]
      refine List.pairwise_cons.mpr ⟨?_, ih hp2⟩
      intro j hj
      rcases List.mem_map.mp hj with ⟨x, hx, hxj⟩
      rcases List.mem_filterMap.mp hx with ⟨i2, hi2, hgi2⟩
      rw [← hxj, fetchEntry_index fetch_element now i2 x hgi2,
        fetchEntry_index fetch_element now i e hf]
      exact hlt i2 hi2

theorem pairwise_lt_range_step1 : ∀ (n s : Nat), (List.range' s n).Pairwise (· < ·) := by
  intro n
  induction n with
  | zero => intro s; simp [List.range']
  | succ m ih =>
    intro s
    rw [List.range']
    refine List.pairwise_cons.mpr ⟨?_, ih (s + 1)⟩
    intro j hj
    rcases List.mem_range'.mp hj with ⟨k, _, hk⟩
    omega

/-- C1. When the reported remote total exceeds the snapshot's high-water
mark, the sweep fetches indices `mark+1 .. total` in ascending order,
appends the usable records to the previous records in fetch order, sets the
mark to the reported total, and `save_cache` is called exactly once, with
exactly that final state — regardless of which individual records were
skipped as missing or lacking a `result` payload. -/
theorem sync_full_sweep (current_total : Nat) (fetch_element : Nat → Option RemoteRecord)
    (now : String) (cache : Cache)
    (h : cache.total_records_at_last_run < current_total) :
    update_database current_total fetch_element now cache =
      ({ total_records_at_last_run := current_total
       , results := cache.results ++
           fetchedEntries fetch_element now (cache.total_records_at_last_run + 1)
             (current_total - cache.total_records_at_last_run)
       , last_update := some now }
      , Outcome.updated
      , [{ total_records_at_last_run := current_total
         , results := cache.results ++
             fetchedEntries fetch_element now (cache.total_records_at_last_run + 1)
               (current_total - cache.total_records_at_last_run)
         , last_update := some now }]) ∧
    ((fetchedEntries fetch_element now (cache.total_records_at_last_run + 1)
        (current_total - cache.total_records_at_last_run)).map SyncEntry.index).Pairwise (· < ·) ∧
    (∀ e ∈ fetchedEntries fetch_element now (cache.total_records_at_last_run + 1)
        (current_total - cache.total_records_at_last_run),
      cache.total_records_at_last_run + 1 ≤ e.index ∧ e.index ≤ current_total) := by
  have h0 : ¬ (current_total = 0) := by omega
  have h1 : ¬ (current_total ≤ cache.total_records_at_last_run) := by omega
  refine ⟨?_, ?_, ?_⟩
  · show update_database current_total fetch_element now cache = _
    unfold update_database
    rw [if_neg h0, if_neg h1]
    simp only [foldl_fetch_eq]
    rfl
  · exact pairwise_index_filterMap fetch_element now _ (pairwise_lt_range_step1 _ _)
  · intro e he
    rcases List.mem_filterMap.mp he with ⟨i, hi, hei⟩
    rcases List.mem_range'.mp hi with ⟨k, hk, hik⟩
    have : e.index = i := fetchEntry_index fetch_element now i e hei
    omega

theorem sync_full_sweep_witness :
    wCache.total_records_at_last_run < 2 ∧
    (update_database 2 wFetch ("now") wCache =
      ({ total_records_at_last_run := 2
       , results := wCache.results ++
           fetchedEntries wFetch ("now") (wCache.total_records_at_last_run + 1)
             (2 - wCache.total_records_at_last_run)
       , last_update := some ("now") }
      , Outcome.updated
      , [{ total_records_at_last_run := 2
         , results := wCache.results ++
             fetchedEntries wFetch ("now") (wCache.total_records_at_last_run + 1)
               (2 - wCache.total_records_at_last_run)
         , last_update := some ("now") }]) ∧
    ((fetchedEntries wFetch ("now") (wCache.total_records_at_last_run + 1)
        (2 - wCache.total_records_at_last_run)).map SyncEntry.index).Pairwise (· < ·) ∧
    (∀ e ∈ fetchedEntries wFetch ("now") (wCache.total_records_at_last_run + 1)
        (2 - wCache.total_records_at_last_run),
      wCache.total_records_at_last_run + 1 ≤ e.index ∧ e.index ≤ 2)) :=
  ⟨by decide, sync_full_sweep 2 wFetch ("now") wCache (by decide)⟩

/-- C2. A run whose reported total is 0 (unreachable source) returns the
snapshot unchanged with no `save_cache` call; a run whose total does not
exceed the high-water mark does the same with outcome `NoNewData`; hence
running the sync twice in succession with an unchanged remote count in that
situation yields `NoNewData` and the unchanged snapshot both times. -/
theorem sync_no_change_paths :
    (∀ (fetch_element : Nat → Option RemoteRecord) (now : String) (cache : Cache),
      update_database 0 fetch_element now cache = (cache, Outcome.sourceUnreachable, [])) ∧
    (∀ (current_total : Nat) (f1 f2 : Nat → Option RemoteRecord) (n1 n2 : String) (cache : Cache),
      0 < current_total → current_total ≤ cache.total_records_at_last_run →
      update_database current_total f1 n1 cache = (cache, Outcome.noNewData, []) ∧
      update_database current_total f2 n2 ((update_database current_total f1 n1 cache).1) =
        (cache, Outcome.noNewData, [])) := by
  constructor
  · intro fetch_element now cache
    rfl
  · intro current_total f1 f2 n1 n2 cache h0 h1
    have hz : ¬ (current_total = 0) := by omega
    have hfirst : update_database current_total f1 n1 cache = (cache, Outcome.noNewData, []) := by
      unfold update_database
      rw [if_neg hz, if_pos h1]
    refine ⟨hfirst, ?_⟩
    rw [hfirst]
    unfold update_database
    rw [if_neg hz, if_pos h1]

theorem sync_no_change_paths_witness :
    (update_database 0 wFetch ("now") wCache = (wCache, Outcome.sourceUnreachable, [])) ∧
    (0 < 2 ∧ 2 ≤ wCache3.total_records_at_last_run ∧
      (update_database 2 wFetch ("now") wCache3 = (wCache3, Outcome.noNewData, []) ∧
       update_database 2 wFetch ("now") ((update_database 2 wFetch ("now") wCache3).1) =
         (wCache3, Outcome.noNewData, []))) :=
  ⟨sync_no_change_paths.1 wFetch ("now") wCache,
   by decide, by decide,
   sync_no_change_paths.2 2 wFetch wFetch ("now") ("now") wCache3 (by decide) (by decide)⟩

theorem pstep_skip (acc : Option Row × List Row) (r : AppRecord)
    (h : hasUsableName r = false) : pstep acc r = acc := by
  unfold pstep
  unfold hasUsableName at h
  cases hn : r.name with
  | none => rfl
  | some nm =>
    rw [hn] at h
    simp only [Bool.not_eq_false'] at h
    dsimp only
    rw [if_pos h]

theorem pstep_delta (acc : Option Row × List Row) (r : AppRecord)
    (h1 : hasUsableName r = true) (h2 : isDeltaRecord r = true) :
    pstep acc r = (some (mkRowOfRecord r), acc.2) := by
  unfold pstep
  unfold hasUsableName at h1
  unfold isDeltaRecord at h2
  cases hn : r.name with
  | none => rw [hn] at h1; cases h1
  | some nm =>
    rw [hn] at h1 h2
    simp only [Bool.not_eq_true'] at h1
    simp only [h1, Bool.not_false, Bool.true_and] at h2
    dsimp only
    rw [if_neg (by simp [h1]), if_pos h2]

theorem pstep_ord (acc : Option Row × List Row) (r : AppRecord)
    (h1 : hasUsableName r = true) (h2 : isDeltaRecord r = false) :
    pstep acc r = (acc.1, acc.2 ++ [mkRowOfRecord r]) := by
  unfold pstep
  unfold hasUsableName at h1
  unfold isDeltaRecord at h2
  cases hn : r.name with
  | none => rw [hn] at h1; cases h1
  | some nm =>
    rw [hn] at h1 h2
    simp only [Bool.not_eq_true'] at h1
    simp only [h1, Bool.not_false, Bool.true_and] at h2
    dsimp only
    rw [if_neg (by simp [h1]), if_neg (by simp [h2])]

theorem pstep_fst_of_not_delta (acc : Option Row × List Row) (r : AppRecord)
    (h2 : isDeltaRecord r = false) : (pstep acc r).1 = acc.1 := by
  cases h1 : hasUsableName r with
  | false => rw [pstep_skip acc r h1]
  | true => rw [pstep_ord acc r h1 h2]

theorem hasUsableName_of_delta (r : AppRecord) (h : isDeltaRecord r = true) :
    hasUsableName r = true := by
  unfold isDeltaRecord at h
  unfold hasUsableName
  cases hn : r.name with
  | none => rw [hn] at h; cases h
  | some nm =>
    rw [hn] at h
    dsimp only at h ⊢
    exact (Bool.and_eq_true_iff.mp h).1

theorem mkRow_name (r : AppRecord) (nm : String) (h : r.name = some nm) :
    (mkRowOfRecord r).name = nm := by
  unfold mkRowOfRecord
  rw [h]
  rfl

theorem partitionRows_fold_mem (rs : List AppRecord) :
    ∀ (acc : Option Row × List Row) (row : Row),
      row ∈ (rs.foldl pstep acc).2 →
      row ∈ acc.2 ∨
        ∃ r ∈ rs, hasUsableName r = true ∧ isDeltaRecord r = false ∧ row = mkRowOfRecord r := by
  induction rs with
  | nil => intro acc row h; exact Or.inl h
  | cons r t ih =>
    intro acc row h
    rw [List.foldl_cons] at h
    have step : ∀ acc2 : Option Row × List Row, row ∈ (t.foldl pstep acc2).2 →
        row ∈ acc2.2 ∨
          ∃ r2 ∈ r :: t, hasUsableName r2 = true ∧ isDeltaRecord r2 = false ∧
            row = mkRowOfRecord r2 := by
      intro acc2 hmem
      rcases ih acc2 row hmem with hin | ⟨r2, hr2, hprops⟩
      · exact Or.inl hin
      · exact Or.inr ⟨r2, List.mem_cons_of_mem r hr2, hprops⟩
    cases h1 : hasUsableName r with
    | false =>
      rw [pstep_skip acc r h1] at h
      exact step acc h
    | true =>
      cases h2 : isDeltaRecord r with
      | true =>
        rw [pstep_delta acc r h1 h2] at h
        rcases step _ h with hin | hr
        · exact Or.inl hin
        · exact Or.inr hr
      | false =>
        rw [pstep_ord acc r h1 h2] at h
        rcases step _ h with hin | hr
        · rcases List.mem_append.mp hin with hin2 | hin2
          · exact Or.inl hin2
          · rcases List.mem_singleton.mp hin2 with rfl
            exact Or.inr ⟨r, List.mem_cons_self r t, h1, h2, rfl⟩
        · exact Or.inr hr

theorem partitionRows_fold_fst (rs : List AppRecord) :
    ∀ acc : Option Row × List Row,
      (rs.foldl pstep acc).1 =
        ((rs.reverse.find? isDeltaRecord).map mkRowOfRecord).or acc.1 := by
  induction rs with
  | nil => intro acc; rfl
  | cons r t ih =>
    intro acc
    rw [List.foldl_cons, ih (pstep acc r), List.reverse_cons, List.find?_append]
    cases hf : t.reverse.find? isDeltaRecord with
    | some x => rfl
    | none =>
      cases h2 : isDeltaRecord r with
      | true =>
        have h1 := hasUsableName_of_delta r h2
        rw [pstep_delta acc r h1 h2]
        simp [List.find?, h2, Option.or]
      | false =>
        have := pstep_fst_of_not_delta acc r h2
        rw [this]
        simp [List.find?, h2, Option.or]

theorem partitionRows_fst_eq (rs : List AppRecord) :
    (partitionRows rs).1 = (rs.reverse.find? isDeltaRecord).map mkRowOfRecord := by
  unfold partitionRows
  rw [partitionRows_fold_fst rs (none, [])]
  exact Option.or_none

theorem partitionRows_fst_name (rs : List AppRecord) (row : Row)
    (h : (partitionRows rs).1 = some row) :
    (pyLower row.name == "delta_net") = true := by
  rw [partitionRows_fst_eq] at h
  rcases Option.map_eq_some'.mp h with ⟨r, hfind, hrow⟩
  have hdelta := List.find?_some hfind
  unfold isDeltaRecord at hdelta
  cases hn : r.name with
  | none => rw [hn] at hdelta; cases hdelta
  | some nm =>
    rw [hn] at hdelta
    dsimp only at hdelta
    rw [← hrow, mkRow_name r nm hn]
    exact (Bool.and_eq_true_iff.mp hdelta).2

theorem partitionRows_snd_names (rs : List AppRecord) (row : Row)
    (h : row ∈ (partitionRows rs).2) :
    ∃ r ∈ rs, ∃ nm, r.name = some nm ∧ row.name = nm ∧
      (pyLower nm == "delta_net") = false := by
  rcases partitionRows_fold_mem rs (none, []) row h with hin | ⟨r, hr, h1, h2, hrow⟩
  · cases hin
  · unfold hasUsableName at h1
    unfold isDeltaRecord at h2
    cases hn : r.name with
    | none => rw [hn] at h1; cases h1
    | some nm =>
      rw [hn] at h1 h2
      dsimp only at h1 h2
      refine ⟨r, hr, nm, hn, by rw [hrow]; exact mkRow_name r nm hn, ?_⟩
      rcases Bool.and_eq_false_iff.mp h2 with hc | hc
      · rw [h1] at hc; cases hc
      · exact hc

/-- C3. `save_cache` is not atomic: interrupting the write after `open`
has truncated the file (step 1), or in the middle of `json.dump` (step 4
here), leaves observable contents that are neither the old snapshot nor
the new one — the previously persisted snapshot does not remain intact. -/
theorem save_cache_not_atomic :
    save_cache_observable ("OLD-SNAPSHOT") ("NEW-SNAPSHOT") 1 ≠ ("OLD-SNAPSHOT") ∧
    save_cache_observable ("OLD-SNAPSHOT") ("NEW-SNAPSHOT") 1 ≠ ("NEW-SNAPSHOT") ∧
    save_cache_observable ("OLD-SNAPSHOT") ("NEW-SNAPSHOT") 4 ≠ ("OLD-SNAPSHOT") ∧
    save_cache_observable ("OLD-SNAPSHOT") ("NEW-SNAPSHOT") 4 ≠ ("NEW-SNAPSHOT") := by
  decide

/-- C8. For every record list without a source record named
`gated_delta_net` and every transformation `process` (any sort and/or
filter the UI applies to the non-pinned rows), the displayed table is
exactly: the hard-coded SOTA pinned row first, then the `delta_net`
baseline row when the source contains one, then the processed remaining
rows — the pinned rows always come first, in fixed relative order. -/
theorem pinned_rows_first (rs : List AppRecord) (process : List Row → List Row)
    (h : ∀ r ∈ rs, ∀ nm, r.name = some nm → (pyLower nm == "gated_delta_net") = false) :
    displayTable (buildFinalTable rs) process =
      gated_delta_net_row :: ((partitionRows rs).1.toList ++ process (partitionRows rs).2) := by
  have hdeltaName : ∀ row : Row, (partitionRows rs).1 = some row →
      ((pyLower row.name == "gated_delta_net") = false ∧
       (pyLower row.name == "delta_net") = true) := by
    intro row hrow
    have hd := partitionRows_fst_name rs row hrow
    have he : pyLower row.name = ("delta_net") := eq_of_beq hd
    rw [he]
    exact ⟨by decide, by decide⟩
  have hsnd : ∀ row ∈ (partitionRows rs).2,
      ((pyLower row.name == "gated_delta_net") = false ∧
       (pyLower row.name == "delta_net") = false) := by
    intro row hrow
    rcases partitionRows_snd_names rs row hrow with ⟨r, hr, nm, hnm, hname, hnd⟩
    rw [hname]
    exact ⟨h r hr nm hnm, hnd⟩
  have hbft : buildFinalTable rs =
      gated_delta_net_row :: ((partitionRows rs).1.toList ++ (partitionRows rs).2) := rfl
  have hdt : displayTable (buildFinalTable rs) process =
      ((buildFinalTable rs).filter (fun row => pyLower row.name == "gated_delta_net") ++
      (buildFinalTable rs).filter (fun row => pyLower row.name == "delta_net")) ++
      process ((buildFinalTable rs).filter (fun row =>
        !(pyLower row.name == "gated_delta_net" || pyLower row.name == "delta_net"))) := rfl
  rw [hdt, hbft]
  rw [List.filter_cons_of_pos (by decide), List.filter_cons_of_neg (by decide),
    List.filter_cons_of_neg (by decide)]
  rw [List.filter_append, List.filter_append, List.filter_append]
  have hfil1 : ((partitionRows rs).1.toList.filter
      (fun row => pyLower row.name == "gated_delta_net")) = [] := by
    cases hd : (partitionRows rs).1 with
    | none => rfl
    | some row =>
      simp only [Option.toList_some]
      rw [List.filter_cons_of_neg (by simp [(hdeltaName row hd).1]), List.filter_nil]
  have hfil2 : ((partitionRows rs).2.filter
      (fun row => pyLower row.name == "gated_delta_net")) = [] := by
    rw [List.filter_eq_nil_iff]
    intro row hrow
    simp [(hsnd row hrow).1]
  have hfil3 : ((partitionRows rs).1.toList.filter
      (fun row => pyLower row.name == "delta_net")) = (partitionRows rs).1.toList := by
    cases hd : (partitionRows rs).1 with
    | none => rfl
    | some row =>
      simp only [Option.toList_some]
      rw [List.filter_cons_of_pos (by simp [(hdeltaName row hd).2]), List.filter_nil]
  have hfil4 : ((partitionRows rs).2.filter
      (fun row => pyLower row.name == "delta_net")) = [] := by
    rw [List.filter_eq_nil_iff]
    intro row hrow
    simp [(hsnd row hrow).2]
  have hfil5 : ((partitionRows rs).1.toList.filter (fun row =>
      !(pyLower row.name == "gated_delta_net" || pyLower row.name == "delta_net"))) = [] := by
    cases hd : (partitionRows rs).1 with
    | none => rfl
    | some row =>
      simp only [Option.toList_some]
      rw [List.filter_cons_of_neg (by simp [(hdeltaName row hd).2]), List.filter_nil]
  have hfil6 : ((partitionRows rs).2.filter (fun row =>
      !(pyLower row.name == "gated_delta_net" || pyLower row.name == "delta_net"))) =
      (partitionRows rs).2 := by
    rw [List.filter_eq_self]
    intro row hrow
    simp [(hsnd row hrow).1, (hsnd row hrow).2]
  rw [hfil1, hfil2, hfil3, hfil4, hfil5, hfil6]
  simp

theorem pinned_rows_first_witness :
    (∀ r ∈ [deltaRecA, ordRec], ∀ nm, r.name = some nm →
      (pyLower nm == "gated_delta_net") = false) ∧
    displayTable (buildFinalTable [deltaRecA, ordRec]) List.reverse =
      gated_delta_net_row ::
        ((partitionRows [deltaRecA, ordRec]).1.toList ++
          List.reverse (partitionRows [deltaRecA, ordRec]).2) :=
  ⟨by decide, pinned_rows_first [deltaRecA, ordRec] List.reverse (by decide)⟩

/-- C9 as stated is false: when two records share the reserved baseline
name, the loop `delta_net_row = row` overwrites the slot, so the
**last**-seen record (here `deltaRecB`, index 2) becomes the pinned row,
not the first-seen one, and the first-seen record is dropped from the
table entirely. -/
theorem delta_pinned_first_seen_counterexample :
    (partitionRows [deltaRecA, deltaRecB]).1 = some (mkRowOfRecord deltaRecB) ∧
    ¬ ((partitionRows [deltaRecA, deltaRecB]).1 = some (mkRowOfRecord deltaRecA)) ∧
    buildFinalTable [deltaRecA, deltaRecB] = [gated_delta_net_row, mkRowOfRecord deltaRecB] := by
  decide

/-- C9 amended. When several records share the reserved baseline name
(case-insensitively), at most one of them is treated as the pinned row:
the slot holds the row of the **last-seen** matching record (the first
match found scanning from the end), and no matching row remains among the
ordinary table rows. -/
theorem delta_pinned_last_seen (rs : List AppRecord) :
    (partitionRows rs).1 = (rs.reverse.find? isDeltaRecord).map mkRowOfRecord ∧
    (partitionRows rs).2.filter (fun row => pyLower row.name == "delta_net") = [] := by
  refine ⟨partitionRows_fst_eq rs, ?_⟩
  rw [List.filter_eq_nil_iff]
  intro row hrow
  rcases partitionRows_snd_names rs row hrow with ⟨r, hr, nm, hnm, hname, hnd⟩
  rw [hname]
  simp [hnd]

/-- C10. Records whose `name` is missing or empty are excluded entirely:
the table built from the records with a usable name is the same as the
table built from all records, so a nameless record contributes no row and
nothing to any summary derived from the table. -/
theorem nameless_records_excluded (rs : List AppRecord) :
    buildFinalTable (rs.filter hasUsableName) = buildFinalTable rs := by
  have hs : ∀ acc : Option Row × List Row,
      (rs.filter hasUsableName).foldl pstep acc = rs.foldl pstep acc := by
    induction rs with
    | nil => intro acc; rfl
    | cons r t ih =>
      intro acc
      cases h1 : hasUsableName r with
      | true => rw [List.filter_cons_of_pos h1, List.foldl_cons, List.foldl_cons, ih]
      | false =>
        rw [List.filter_cons_of_neg (by simp [h1]), List.foldl_cons, pstep_skip acc r h1, ih]
  unfold buildFinalTable partitionRows
  rw [hs]

theorem findLoss_eq_none (target : Int) :
    ∀ l : List (List Char × List Char),
      (∀ p ∈ l, ¬ (pyIntCore p.1 = some target)) → findLoss target l = none := by
  intro l
  induction l with
  | nil => intro _; rfl
  | cons p rest ih =>
    intro h
    have hrest : ∀ q ∈ rest, ¬ (pyIntCore q.1 = some target) :=
      fun q hq => h q (List.mem_cons_of_mem p hq)
    unfold findLoss
    cases hi : pyIntCore p.1 with
    | none => exact ih hrest
    | some n =>
      have hne : ¬ (n = target) := by
        intro he
        exact h p (List.mem_cons_self p rest) (by rw [hi, he])
      dsimp only
      rw [if_neg hne]
      exact ih hrest

theorem dictInsert_mem (m : List (String × Cell)) (k : String) (v : Cell) (p : String × Cell)
    (h : p ∈ dictInsert m k v) : p ∈ m ∨ p = (k, v) := by
  unfold dictInsert at h
  by_cases hc : m.any (fun q => q.1 == k)
  · rw [if_pos hc] at h
    rcases List.mem_map.mp h with ⟨q, hq, hpq⟩
    cases hqk : (q.1 == k) with
    | true => right; rw [← hpq, if_pos hqk]
    | false => left; rw [← hpq, if_neg (by simp [hqk])]; exact hq
  · rw [if_neg hc] at h
    rcases List.mem_append.mp h with h2 | h2
    · exact Or.inl h2
    · exact Or.inr (List.mem_singleton.mp h2)

theorem fold_dict_mem (pairs : List (Nat × (List Char × List Char))) :
    ∀ (acc : List (String × Cell)) (kv : String × Cell),
      kv ∈ pairs.foldl
        (fun acc iv =>
          if headerSkip iv.1 iv.2.1 then acc
          else dictInsert acc (normalize_column_name ⟨iv.2.1⟩) (coerceValue iv.2.2))
        acc →
      kv ∈ acc ∨ ∃ iv ∈ pairs, kv = (normalize_column_name ⟨iv.2.1⟩, coerceValue iv.2.2) := by
  induction pairs with
  | nil => intro acc kv h; exact Or.inl h
  | cons iv rest ih =>
    intro acc kv h
    rw [List.foldl_cons] at h
    have step : ∀ acc2, kv ∈ rest.foldl
        (fun acc iv =>
          if headerSkip iv.1 iv.2.1 then acc
          else dictInsert acc (normalize_column_name ⟨iv.2.1⟩) (coerceValue iv.2.2)) acc2 →
        kv ∈ acc2 ∨
          ∃ iv2 ∈ iv :: rest, kv = (normalize_column_name ⟨iv2.2.1⟩, coerceValue iv2.2.2) := by
      intro acc2 hmem
      rcases ih acc2 kv hmem with hin | ⟨iv2, hiv2, hkv⟩
      · exact Or.inl hin
      · exact Or.inr ⟨iv2, List.mem_cons_of_mem iv hiv2, hkv⟩
    by_cases hs : headerSkip iv.1 iv.2.1
    · rw [if_pos hs] at h
      exact step acc h
    · rw [if_neg hs] at h
      rcases step _ h with hin | hr
      · rcases dictInsert_mem _ _ _ kv hin with hin2 | heq
        · exact Or.inl hin2
        · exact Or.inr ⟨iv, List.mem_cons_self iv rest, heq⟩
      · exact Or.inr hr

theorem snd_mem_of_mem_enumFrom {α : Type} :
    ∀ (l : List α) (n i : Nat) (x : α), (i, x) ∈ List.enumFrom n l → x ∈ l := by
  intro l
  induction l with
  | nil => intro n i x h; cases h
  | cons a t ih =>
    intro n i x h
    rcases List.mem_cons.mp h with heq | hmem
    · cases heq; exact List.mem_cons_self a t
    · exact List.mem_cons_of_mem a (ih (n + 1) i x hmem)

/-- C4. The loss-series parser in its two modes (the `minimum` mode is
modelled from the spec, see `parse_loss_minimum`): on the scenario text,
`at_step(2000)` yields 4.4, `minimum` yields 4.4, `at_step(3000)` yields
absent; and in general the at-step mode returns absent whenever no pair's
step coerces to the target (pairs whose coercion fails are skipped). -/
theorem parse_loss_series_spec :
    parse_loss_series (LossMode.atStep 2000) ("step,0,1000,2000\nloss,5.1,4.8,4.4") =
      some (mkRat 44 10) ∧
    parse_loss_series LossMode.minLoss ("step,0,1000,2000\nloss,5.1,4.8,4.4") =
      some (mkRat 44 10) ∧
    parse_loss_series (LossMode.atStep 3000) ("step,0,1000,2000\nloss,5.1,4.8,4.4") = none ∧
    (∀ (text : String) (target : Int),
      (∀ p ∈ lossPairs text, ¬ (pyIntCore p.1 = some target)) →
      parse_loss_series (LossMode.atStep target) text = none) := by
  refine ⟨by decide, by decide, by decide, ?_⟩
  intro text target h
  show get_loss_at_step target text = none
  unfold get_loss_at_step
  by_cases he : text.toList = []
  · rw [if_pos he]
  · rw [if_neg he]
    exact findLoss_eq_none target (lossPairs text) h

theorem parse_loss_series_spec_witness :
    parse_loss_series (LossMode.atStep 7) ("step,5\nloss,1.0") = none :=
  parse_loss_series_spec.2.2.2 ("step,5\nloss,1.0") 7 (by decide)

/-- C5. `parse_test_results` splits header and value lines on commas,
pairs positionally, skips the label column, normalizes the remaining
headers, coerces values to numbers keeping the trimmed string on failure,
and resolves duplicate canonical labels by last value wins: the scenario
text yields ARC Challenge 0.55 and BoolQ 0.80, and two headers normalizing
to the same canonical label keep only the later value. -/
theorem parse_test_results_spec :
    parse_test_results ("Model,ARC_Challenge,BoolQ\nm1,0.55,0.80") =
      [("ARC Challenge", Cell.num (mkRat 55 100)), ("BoolQ", Cell.num (mkRat 80 100))] ∧
    parse_test_results ("Model,ARC_Challenge,arc challenge\nm1,0.1,0.2") =
      [("ARC Challenge", Cell.num (mkRat 2 10))] := by
  decide

/-- C6. Both parsers are total and fail soft on malformed input: any text
with fewer than two lines (empty text and single lines included) yields the
empty mapping / absent in every mode, non-numeric values are kept as text
rather than raising, extra columns are truncated by the positional
pairing, and every entry of a parsed benchmark mapping comes from an
actual header/value column pair of the input (no partial garbage). -/
theorem parser_totality :
    (∀ s : String, (pyLines s).length < 2 → parse_test_results s = []) ∧
    (∀ (s : String) (mode : LossMode), (pyLines s).length < 2 →
      parse_loss_series mode s = none) ∧
    (∀ (s : String) (kv : String × Cell), kv ∈ parse_test_results s →
      ∃ hv ∈ (headerTokens s).zip (valueTokens s),
        kv = (normalize_column_name ⟨hv.1⟩, coerceValue hv.2)) ∧
    (parse_test_results ("") = [] ∧
     parse_test_results ("just one line") = [] ∧
     parse_test_results ("a,b\nc,d") = [("B", Cell.text ("d"))] ∧
     parse_test_results ("Model,X\nm,1,2,3") = [("X", Cell.num (mkRat 1 1))] ∧
     get_loss_at_step_2000 ("") = none ∧
     get_loss_at_step_2000 ("loss only line") = none ∧
     parse_loss_minimum ("") = none) := by
  refine ⟨?_, ?_, ?_, by decide⟩
  · intro s hlen
    unfold parse_test_results
    by_cases he : s.toList = []
    · rw [if_pos he]
    · rw [if_neg he]
      cases hp : pyLines s with
      | nil => rfl
      | cons l0 t =>
        cases t with
        | nil => rfl
        | cons l1 t2 =>
          rw [hp] at hlen
          simp only [List.length_cons] at hlen
          omega
  · intro s mode hlen
    have hpairs : lossPairs s = [] := by
      unfold lossPairs
      cases hp : pyLines s with
      | nil => rfl
      | cons l0 t =>
        cases t with
        | nil => rfl
        | cons l1 t2 =>
          rw [hp] at hlen
          simp only [List.length_cons] at hlen
          omega
    cases mode with
    | atStep target =>
      show get_loss_at_step target s = none
      unfold get_loss_at_step
      by_cases he : s.toList = []
      · rw [if_pos he]
      · rw [if_neg he, hpairs]
        rfl
    | minLoss =>
      show parse_loss_minimum s = none
      unfold parse_loss_minimum
      by_cases he : s.toList = []
      · rw [if_pos he]
      · rw [if_neg he]
        cases hp : pyLines s with
        | nil => rfl
        | cons l0 t =>
          cases t with
          | nil => rfl
          | cons l1 t2 =>
            rw [hp] at hlen
            simp only [List.length_cons] at hlen
            omega
  · intro s kv h
    unfold parse_test_results at h
    by_cases he : s.toList = []
    · rw [if_pos he] at h
      cases h
    · rw [if_neg he] at h
      cases hp : pyLines s with
      | nil => rw [hp] at h; cases h
      | cons l0 t =>
        cases t with
        | nil => rw [hp] at h; cases h
        | cons l1 t2 =>
          rw [hp] at h
          dsimp only at h
          have hht : headerTokens s = (splitOnChar ',' l0).map stripCore := by
            unfold headerTokens
            rw [hp]
          have hvt : valueTokens s = (splitOnChar ',' l1).map stripCore := by
            unfold valueTokens
            rw [hp]
          rcases fold_dict_mem _ [] kv h with hin | ⟨iv, hiv, hkv⟩
          · cases hin
          · refine ⟨iv.2, ?_, hkv⟩
            rw [hht, hvt]
            exact snd_mem_of_mem_enumFrom _ 0 iv.1 iv.2 hiv

theorem parser_totality_witness :
    (parse_test_results ("solo") = []) ∧
    (parse_loss_series (LossMode.atStep 2000) ("solo") = none) ∧
    (∃ hv ∈ (headerTokens ("a,b\nc,d")).zip (valueTokens ("a,b\nc,d")),
      (("B", Cell.text ("d")) : String × Cell) =
        (normalize_column_name ⟨hv.1⟩, coerceValue hv.2)) :=
  ⟨parser_totality.1 ("solo") (by decide),
   parser_totality.2.1 ("solo") (LossMode.atStep 2000) (by decide),
   parser_totality.2.2.1 ("a,b\nc,d") (("B", Cell.text ("d"))) (by decide)⟩

theorem char_toNat_ofNat {n : Nat} (h : n < 55296) : (Char.ofNat n).toNat = n := by
  have hv : n.isValidChar := Or.inl h
  rw [Char.ofNat, dif_pos hv]
  simp [Char.ofNatAux, Char.toNat, UInt32.toNat, BitVec.toNat_ofNatLt]

theorem char_eq_of_toNat_eq {a b : Char} (h : a.toNat = b.toNat) : a = b :=
  Char.ext (UInt32.toNat.inj h)

theorem isUpperAscii_iff (c : Char) : isUpperAscii c = true ↔ 65 ≤ c.toNat ∧ c.toNat ≤ 90 := by
  simp [isUpperAscii]

theorem isLowerAscii_iff (c : Char) : isLowerAscii c = true ↔ 97 ≤ c.toNat ∧ c.toNat ≤ 122 := by
  simp [isLowerAscii]

theorem toNat_pyLowerChar (c : Char) :
    (pyLowerChar c).toNat = if 65 ≤ c.toNat ∧ c.toNat ≤ 90 then c.toNat + 32 else c.toNat := by
  unfold pyLowerChar
  by_cases h : 65 ≤ c.toNat ∧ c.toNat ≤ 90
  · rw [if_pos ((isUpperAscii_iff c).mpr h), if_pos h, char_toNat_ofNat (by omega)]
  · rw [if_neg (fun hc => h ((isUpperAscii_iff c).mp hc)), if_neg h]

theorem toNat_pyUpperChar (c : Char) :
    (pyUpperChar c).toNat = if 97 ≤ c.toNat ∧ c.toNat ≤ 122 then c.toNat - 32 else c.toNat := by
  unfold pyUpperChar
  by_cases h : 97 ≤ c.toNat ∧ c.toNat ≤ 122
  · rw [if_pos ((isLowerAscii_iff c).mpr h), if_pos h, char_toNat_ofNat (by omega)]
  · rw [if_neg (fun hc => h ((isLowerAscii_iff c).mp hc)), if_neg h]

theorem pyLowerChar_idem (c : Char) : pyLowerChar (pyLowerChar c) = pyLowerChar c := by
  refine char_eq_of_toNat_eq ?_
  simp only [toNat_pyLowerChar]
  split_ifs <;> omega

theorem pyLowerChar_pyUpperChar (c : Char) : pyLowerChar (pyUpperChar c) = pyLowerChar c := by
  refine char_eq_of_toNat_eq ?_
  simp only [toNat_pyLowerChar, toNat_pyUpperChar]
  split_ifs <;> omega

theorem pyUpperChar_idem (c : Char) : pyUpperChar (pyUpperChar c) = pyUpperChar c := by
  refine char_eq_of_toNat_eq ?_
  simp only [toNat_pyUpperChar]
  split_ifs <;> omega

theorem pyIsAlpha_pyLowerChar (c : Char) : pyIsAlpha (pyLowerChar c) = pyIsAlpha c := by
  rw [Bool.eq_iff_iff]
  simp only [pyIsAlpha, Bool.or_eq_true, isUpperAscii_iff, isLowerAscii_iff, toNat_pyLowerChar]
  split_ifs <;> omega

theorem pyIsAlpha_pyUpperChar (c : Char) : pyIsAlpha (pyUpperChar c) = pyIsAlpha c := by
  rw [Bool.eq_iff_iff]
  simp only [pyIsAlpha, Bool.or_eq_true, isUpperAscii_iff, isLowerAscii_iff, toNat_pyUpperChar]
  split_ifs <;> omega

theorem pyIsSpace_toNat (c : Char) : pyIsSpace c = true ↔
    c.toNat = 32 ∨ c.toNat = 9 ∨ c.toNat = 10 ∨ c.toNat = 13 ∨ c.toNat = 11 ∨ c.toNat = 12 := by
  simp [pyIsSpace]
  tauto

theorem pyIsSpace_pyLowerChar (c : Char) : pyIsSpace (pyLowerChar c) = pyIsSpace c := by
  rw [Bool.eq_iff_iff, pyIsSpace_toNat, pyIsSpace_toNat, toNat_pyLowerChar]
  split_ifs <;> omega

theorem pyIsSpace_pyUpperChar (c : Char) : pyIsSpace (pyUpperChar c) = pyIsSpace c := by
  rw [Bool.eq_iff_iff, pyIsSpace_toNat, pyIsSpace_toNat, toNat_pyUpperChar]
  split_ifs <;> omega

theorem titleTransform_eq (b : Bool) (c : Char) :
    titleTransform b c =
      if pyIsAlpha c = true then (if b = true then pyLowerChar c else pyUpperChar c) else c := by
  unfold titleTransform
  rfl

theorem pyIsAlpha_titleTransform (b : Bool) (c : Char) :
    pyIsAlpha (titleTransform b c) = pyIsAlpha c := by
  rw [titleTransform_eq]
  by_cases ha : pyIsAlpha c = true
  · rw [if_pos ha]
    cases b with
    | true => rw [if_pos rfl, pyIsAlpha_pyLowerChar]
    | false => rw [if_neg (by simp), pyIsAlpha_pyUpperChar]
  · rw [if_neg ha]

theorem pyIsSpace_titleTransform (b : Bool) (c : Char) :
    pyIsSpace (titleTransform b c) = pyIsSpace c := by
  rw [titleTransform_eq]
  by_cases ha : pyIsAlpha c = true
  · rw [if_pos ha]
    cases b with
    | true => rw [if_pos rfl, pyIsSpace_pyLowerChar]
    | false => rw [if_neg (by simp), pyIsSpace_pyUpperChar]
  · rw [if_neg ha]

theorem pyLowerChar_titleTransform (b : Bool) (c : Char) :
    pyLowerChar (titleTransform b c) = pyLowerChar c := by
  rw [titleTransform_eq]
  by_cases ha : pyIsAlpha c = true
  · rw [if_pos ha]
    cases b with
    | true => rw [if_pos rfl, pyLowerChar_idem]
    | false => rw [if_neg (by simp), pyLowerChar_pyUpperChar]
  · rw [if_neg ha]

theorem titleTransform_idem (b : Bool) (c : Char) :
    titleTransform b (titleTransform b c) = titleTransform b c := by
  by_cases ha : pyIsAlpha c = true
  · rw [titleTransform_eq b (titleTransform b c), pyIsAlpha_titleTransform, if_pos ha]
    rw [titleTransform_eq b c, if_pos ha]
    cases b with
    | true => rw [if_pos rfl, if_pos rfl, pyLowerChar_idem]
    | false => rw [if_neg (by simp), if_neg (by simp), pyUpperChar_idem]
  · rw [titleTransform_eq b c, if_neg ha, titleTransform_eq b c, if_neg ha]

theorem titleAuxCore_idem : ∀ (l : List Char) (b : Bool),
    titleAuxCore b (titleAuxCore b l) = titleAuxCore b l := by
  intro l
  induction l with
  | nil => intro b; rfl
  | cons c cs ih =>
    intro b
    show titleAuxCore b (titleTransform b c :: titleAuxCore (pyIsAlpha c) cs) = _
    show titleTransform b (titleTransform b c) ::
        titleAuxCore (pyIsAlpha (titleTransform b c)) (titleAuxCore (pyIsAlpha c) cs) = _
    rw [titleTransform_idem, pyIsAlpha_titleTransform, ih (pyIsAlpha c)]
    rfl

theorem map_pyIsSpace_titleAuxCore : ∀ (l : List Char) (b : Bool),
    (titleAuxCore b l).map pyIsSpace = l.map pyIsSpace := by
  intro l
  induction l with
  | nil => intro b; rfl
  | cons c cs ih =>
    intro b
    show pyIsSpace (titleTransform b c) :: (titleAuxCore (pyIsAlpha c) cs).map pyIsSpace = _
    rw [pyIsSpace_titleTransform, ih (pyIsAlpha c)]
    rfl

theorem map_pyLowerChar_titleAuxCore : ∀ (l : List Char) (b : Bool),
    (titleAuxCore b l).map pyLowerChar = l.map pyLowerChar := by
  intro l
  induction l with
  | nil => intro b; rfl
  | cons c cs ih =>
    intro b
    show pyLowerChar (titleTransform b c) :: (titleAuxCore (pyIsAlpha c) cs).map pyLowerChar = _
    rw [pyLowerChar_titleTransform, ih (pyIsAlpha c)]
    rfl

theorem head?_dropWhile_false {α : Type} (p : α → Bool) :
    ∀ l : List α, ∀ x ∈ (l.dropWhile p).head?, p x = false := by
  intro l
  induction l with
  | nil => intro x h; cases h
  | cons a t ih =>
    intro x h
    rw [List.dropWhile_cons] at h
    by_cases hp : p a = true
    · rw [if_pos hp] at h
      exact ih x h
    · rw [if_neg hp] at h
      have hxa : a = x := by simpa using h
      rw [← hxa]
      exact Bool.eq_false_iff.mpr hp

theorem dropWhile_eq_self_of_head {α : Type} (p : α → Bool) (l : List α)
    (h : ∀ x ∈ l.head?, p x = false) : l.dropWhile p = l := by
  cases l with
  | nil => rfl
  | cons a t =>
    have ha := h a (by simp)
    rw [List.dropWhile_cons, if_neg (by simp [ha])]

theorem getLast?_dropWhile {α : Type} (p : α → Bool) :
    ∀ l : List α, l.dropWhile p = [] ∨ (l.dropWhile p).getLast? = l.getLast? := by
  intro l
  induction l with
  | nil => left; rfl
  | cons a t ih =>
    rw [List.dropWhile_cons]
    by_cases hp : p a = true
    · rw [if_pos hp]
      cases hdw : t.dropWhile p with
      | nil => left; rfl
      | cons b bs =>
        right
        rcases ih with h | h
        · rw [hdw] at h; cases h
        · rw [hdw] at h
          rw [← hdw] at h ⊢
          cases t with
          | nil => rw [List.dropWhile_nil] at hdw; cases hdw
          | cons c ts => rw [List.getLast?_cons_cons]; exact h
    · rw [if_neg hp]
      right
      rfl

theorem stripCore_head?_false (l : List Char) :
    ∀ x ∈ (stripCore l).head?, pyIsSpace x = false := by
  intro x hx
  unfold stripCore at hx
  rw [List.head?_reverse] at hx
  rcases getLast?_dropWhile pyIsSpace ((l.dropWhile pyIsSpace).reverse) with h | h
  · rw [h] at hx; cases hx
  · rw [h, List.getLast?_reverse] at hx
    exact head?_dropWhile_false pyIsSpace l x hx

theorem stripCore_getLast?_false (l : List Char) :
    ∀ x ∈ (stripCore l).getLast?, pyIsSpace x = false := by
  intro x hx
  unfold stripCore at hx
  rw [List.getLast?_reverse] at hx
  exact head?_dropWhile_false pyIsSpace _ x hx

theorem stripCore_eq_self (l : List Char)
    (h1 : ∀ x ∈ l.head?, pyIsSpace x = false)
    (h2 : ∀ x ∈ l.getLast?, pyIsSpace x = false) : stripCore l = l := by
  unfold stripCore
  rw [dropWhile_eq_self_of_head pyIsSpace l h1]
  rw [dropWhile_eq_self_of_head pyIsSpace l.reverse
    (by intro x hx; rw [List.head?_reverse] at hx; exact h2 x hx)]
  exact List.reverse_reverse l

theorem stripCore_idem (l : List Char) : stripCore (stripCore l) = stripCore l :=
  stripCore_eq_self _ (stripCore_head?_false l) (stripCore_getLast?_false l)

theorem head?_space_of_map_eq {l l2 : List Char}
    (hm : l2.map pyIsSpace = l.map pyIsSpace)
    (h : ∀ x ∈ l.head?, pyIsSpace x = false) : ∀ x ∈ l2.head?, pyIsSpace x = false := by
  intro x hx
  have hh := congrArg List.head? hm
  rw [List.head?_map, List.head?_map] at hh
  cases hl2 : l2.head? with
  | none => rw [hl2] at hx; cases hx
  | some a =>
    rw [hl2] at hx hh
    have hxa : a = x := by simpa using hx
    cases hl : l.head? with
    | none => rw [hl] at hh; cases hh
    | some b =>
      rw [hl] at hh
      have hb := h b (by rw [hl]; rfl)
      have hab : pyIsSpace a = pyIsSpace b := by simpa using hh
      rw [← hxa, hab, hb]

theorem getLast?_space_of_map_eq {l l2 : List Char}
    (hm : l2.map pyIsSpace = l.map pyIsSpace)
    (h : ∀ x ∈ l.getLast?, pyIsSpace x = false) : ∀ x ∈ l2.getLast?, pyIsSpace x = false := by
  intro x hx
  have hh := congrArg List.getLast? hm
  rw [List.getLast?_map, List.getLast?_map] at hh
  cases hl2 : l2.getLast? with
  | none => rw [hl2] at hx; cases hx
  | some a =>
    rw [hl2] at hx hh
    have hxa : a = x := by simpa using hx
    cases hl : l.getLast? with
    | none => rw [hl] at hh; cases hh
    | some b =>
      rw [hl] at hh
      have hb := h b (by rw [hl]; rfl)
      have hab : pyIsSpace a = pyIsSpace b := by simpa using hh
      rw [← hxa, hab, hb]

theorem titleCore_strip_fixed (s : List Char) (hs : stripCore s = s) :
    stripCore (titleCore s) = titleCore s := by
  apply stripCore_eq_self
  · exact head?_space_of_map_eq (map_pyIsSpace_titleAuxCore s false)
      (by rw [← hs]; exact stripCore_head?_false s)
  · exact getLast?_space_of_map_eq (map_pyIsSpace_titleAuxCore s false)
      (by rw [← hs]; exact stripCore_getLast?_false s)

theorem lookupChars_mem : ∀ (m : List (List Char × List Char)) (k v : List Char),
    lookupChars k m = some v → (k, v) ∈ m := by
  intro m
  induction m with
  | nil => intro k v h; cases h
  | cons p rest ih =>
    intro k v h
    unfold lookupChars at h
    by_cases hp : p.1 = k
    · rw [if_pos hp] at h
      cases h
      rw [← hp]
      exact List.mem_cons_self _ _
    · rw [if_neg hp] at h
      exact List.mem_cons_of_mem p (ih k v h)

theorem column_mapping_chars_fixed : ∀ p ∈ column_mapping_chars, normCore p.2 = p.2 := by
  decide

theorem normCore_idem (l : List Char) : normCore (normCore l) = normCore l := by
  cases hlk : lookupChars ((stripCore l).map pyLowerChar) column_mapping_chars with
  | some v =>
    have h1 : normCore l = v := by
      show (match lookupChars ((stripCore l).map pyLowerChar) column_mapping_chars with
        | some v => v
        | none => titleCore (stripCore l)) = v
      rw [hlk]
    rw [h1]
    exact column_mapping_chars_fixed _ (lookupChars_mem _ _ _ hlk)
  | none =>
    have h1 : normCore l = titleCore (stripCore l) := by
      show (match lookupChars ((stripCore l).map pyLowerChar) column_mapping_chars with
        | some v => v
        | none => titleCore (stripCore l)) = titleCore (stripCore l)
      rw [hlk]
    rw [h1]
    have hss : stripCore (stripCore l) = stripCore l := stripCore_idem l
    have hfix : stripCore (titleCore (stripCore l)) = titleCore (stripCore l) :=
      titleCore_strip_fixed (stripCore l) hss
    have hlow : (stripCore (titleCore (stripCore l))).map pyLowerChar =
        (stripCore l).map pyLowerChar := by
      rw [hfix]
      exact map_pyLowerChar_titleAuxCore (stripCore l) false
    show (match lookupChars ((stripCore (titleCore (stripCore l))).map pyLowerChar)
        column_mapping_chars with
      | some v => v
      | none => titleCore (stripCore (titleCore (stripCore l)))) = titleCore (stripCore l)
    rw [hlow, hlk, hfix]
    exact titleAuxCore_idem (stripCore l) false

/-- C7. The column normalizer is idempotent: normalizing a label twice
gives the same result as normalizing it once, both for labels that hit the
fixed mapping table (its canonical values are themselves fixed points) and
for labels that fall back to the trimmed title-cased form. -/
theorem normalize_idempotent (s : String) :
    normalize_column_name (normalize_column_name s) = normalize_column_name s := by
  show (⟨normCore (String.toList ⟨normCore s.toList⟩)⟩ : String) = ⟨normCore s.toList⟩
  rw [show String.toList (⟨normCore s.toList⟩ : String) = normCore s.toList from rfl]
  rw [normCore_idem]
